import Mathlib

/-!
Verification development for the `uithub.typedoc` virtual compilation pipeline
(`src/main.ts`).

The embedding is shallow: every pure function of `src/main.ts` is translated
into an executable Lean definition over `String` and association lists
(JavaScript's `Map`/`Record` become `List (String × String)` with
overwrite-on-set semantics, JavaScript string methods become character-list
operations on `String.data`).  The TypeScript toolchain (`ts.createProgram`,
`program.emit`, `ts.resolveModuleName`, the parser) is not part of this
repository; where a claim depends on it, the toolchain's contribution is
modelled from the specification's words and the definition's doc comment says
so explicitly.
-/

/-! ## String primitives

JavaScript string methods used by `src/main.ts` (`startsWith`, `endsWith`,
`substring`, `split`, `join`), modelled on the character sequence
(`String.data`).  The recursions are structural so that every closed theorem
evaluates inside the kernel. -/

/-- Boolean list-prefix test, structural in both lists. -/
def listIsPrefix : List Char → List Char → Bool
  | [], _ => true
  | _ :: _, [] => false
  | a :: as, b :: bs => if a = b then listIsPrefix as bs else false

/-- Mirrors JavaScript `s.startsWith(pre)`. -/
def strStartsWith (s pre : String) : Bool := listIsPrefix pre.data s.data

/-- Mirrors JavaScript `s.endsWith(suffix)` (regular-expression anchors
`/x$/` in the source are the same test). -/
def strEndsWith (s suffix : String) : Bool :=
  listIsPrefix suffix.data.reverse s.data.reverse

/-- Mirrors JavaScript `s.substring(n)`: drop the first `n` characters. -/
def strDrop (s : String) (n : Nat) : String := ⟨s.data.drop n⟩

/-- Drop the last `n` characters (used for the regex suffix rewrites). -/
def strDropRight (s : String) (n : Nat) : String :=
  ⟨s.data.take (s.data.length - n)⟩

/-- Splitting a character list at a separator character; mirrors JavaScript
`s.split(sep)` for a one-character separator (`"".split` gives `[""]`). -/
def splitCharList (c : Char) : List Char → List (List Char)
  | [] => [[]]
  | x :: xs =>
    match splitCharList c xs with
    | [] => [[]]
    | h :: t => if x = c then [] :: h :: t else (x :: h) :: t

/-- Mirrors JavaScript `s.split("/")`. -/
def splitSlash (s : String) : List String :=
  (splitCharList '/' s.data).map (fun l => ⟨l⟩)

/-- Mirrors JavaScript `parts.join("/")`. -/
def joinSlash : List String → String
  | [] => ""
  | [s] => s
  | s :: rest => s ++ "/" ++ joinSlash rest

/-- Rewrite of a terminal suffix: `replaceSuffix suf rep s` mirrors
JavaScript `s.replace(/suf$/, rep)` for a literal suffix `suf`. -/
def replaceSuffix (suffix replacement s : String) : String :=
  if strEndsWith s suffix then strDropRight s suffix.data.length ++ replacement
  else s

/-! ## Association-list maps

JavaScript `Map` and plain `Record` objects, as ordered association lists:
`mapSet` overwrites an existing key in place (JavaScript keeps the original
insertion position on overwrite) and otherwise appends. -/

/-- Mirrors `map.set(k, v)` / `record[k] = v`. -/
def mapSet : List (String × String) → String → String → List (String × String)
  | [], k, v => [(k, v)]
  | (k2, v2) :: rest, k, v =>
    if k2 = k then (k, v) :: rest else (k2, v2) :: mapSet rest k v

/-- Mirrors `map.get(k)` / `record[k]`. -/
def mapGet : List (String × String) → String → Option String
  | [], _ => none
  | (k2, v2) :: rest, k => if k2 = k then some v2 else mapGet rest k

/-- Mirrors `map.has(k)` (and JavaScript truthiness of `record[k]` for the
non-empty string values the pipeline stores). -/
def mapHas (m : List (String × String)) (k : String) : Bool :=
  (mapGet m k).isSome

/-- Mirrors `Object.keys(record)` / iteration order of a `Map`'s keys. -/
def mapKeys (m : List (String × String)) : List String := m.map Prod.fst

/-! ## Path normalizer (src/main.ts lines 37–47) -/

/-- Embeds `normalizePath`: strips one leading `./`, then one leading `/`. -/
def normalizePath (path : String) : String :=
  let path1 := if strStartsWith path "./" then strDrop path 2 else path
  if strStartsWith path1 "/" then strDrop path1 1 else path1

/-! ## Package manifest (src/main.ts lines 8–17) -/

/-- A value of the `exports` record, per the source's declared type
`Record<string, string | Record<string, string>>`: a subpath or condition
key maps to a string or to a one-level map of strings. -/
inductive ExportsEntry where
  | str (s : String)
  | obj (conditions : List (String × String))
deriving DecidableEq

/-- Embeds the `PackageJson` interface.  `dependencies`/`devDependencies`
keep their key-value pairs (only the keys are ever read).  The
`compilerOptions` override block configures the external toolchain only and
is not modelled. -/
structure PackageJson where
  name : Option String := none
  exports : Option (List (String × ExportsEntry)) := none
  main : Option String := none
  types : Option String := none
  typings : Option String := none
  dependencies : List (String × String) := []
  devDependencies : List (String × String) := []
deriving DecidableEq

/-- JavaScript truthiness of an optional string field (`if (packageJson.main)`
is false for the empty string). -/
def truthyString : Option String → Option String
  | some s => if s = "" then none else some s
  | none => none

/-! ## Entry point resolver (src/main.ts lines 52–108) -/

/-- Embeds one iteration of `processExports` over a top-level entry of the
`exports` record (src/main.ts lines 69–96), at the source's declared
`exports` type.  A subpath key (starting with `.`) with a string value is a
candidate; a subpath key with an object value is recursed into, where the
inner entries are all string-valued, so only inner keys that themselves
start with `.` contribute (a plain condition name such as `types` falls into
the recursion's non-subpath branch, whose guard requires the value to be an
object, and is skipped).  A non-subpath key contributes every string value
of an object value and nothing for a string value. -/
def processExportsEntry (key : String) (value : ExportsEntry) : List String :=
  if strStartsWith key "." then
    match value with
    | ExportsEntry.str s => [s]
    | ExportsEntry.obj conditions =>
      conditions.foldl
        (fun acc kv => if strStartsWith kv.1 "." then acc ++ [kv.2] else acc) []
  else
    match value with
    | ExportsEntry.str _ => []
    | ExportsEntry.obj conditions => conditions.map Prod.snd

/-- Embeds `getPackageEntryPoints`: `main`, then `types` (else `typings`),
then the `exports` walk; every candidate is normalized and its `.js`,
`.d.ts`, `.mjs`, `.cjs` suffix rewritten to `.ts`, in the source's order. -/
def getPackageEntryPoints (packageJson : PackageJson) : List String :=
  let entryPoints :=
    (match truthyString packageJson.main with
     | some m => [m]
     | none => [])
    ++ (match truthyString packageJson.types with
        | some t => [t]
        | none =>
          match truthyString packageJson.typings with
          | some t => [t]
          | none => [])
    ++ (match packageJson.exports with
        | some entries =>
          entries.foldl (fun acc kv => acc ++ processExportsEntry kv.1 kv.2) []
        | none => [])
  ((((entryPoints.map normalizePath).map
      (replaceSuffix ".js" ".ts")).map
      (replaceSuffix ".d.ts" ".ts")).map
      (replaceSuffix ".mjs" ".ts")).map
      (replaceSuffix ".cjs" ".ts")

/-! ## External dependency shims (src/main.ts lines 113–194) -/

/-- Embeds `getExternalDependencies`: the keys of `dependencies` followed by
the keys of `devDependencies`, no deduplication. -/
def getExternalDependencies (packageJson : PackageJson) : List String :=
  packageJson.dependencies.map Prod.fst ++ packageJson.devDependencies.map Prod.fst

/-- The synthetic path a dependency's shim is stored under
(src/main.ts line 189). -/
def shimPath (dep : String) : String :=
  "node_modules/" ++ dep ++ "/index.d.ts"

/-- The literal declaration texts of src/main.ts (the `react` and `lodash`
shims of lines 145–177, the generic template of lines 180–186, and the
enhanced `lib.d.ts` of lines 292–536).  No claim inspects these texts, only
the keys they are stored under, so they are carried as parameters rather
than transcribed. -/
structure ShimTexts where
  lib : String
  react : String
  lodash : String
  generic : String → String

/-- The shim text selected for one dependency (src/main.ts lines 141–187):
a hand-authored shim for `react` and `lodash`, else the generic template. -/
def shimText (texts : ShimTexts) (dep : String) : String :=
  if dep = "react" then texts.react
  else if dep = "lodash" then texts.lodash
  else texts.generic dep

/-- Embeds `createExternalDependencyShims`: one record entry per dependency,
keyed by its synthetic path. -/
def createExternalDependencyShims (texts : ShimTexts) (dependencies : List String) :
    List (String × String) :=
  dependencies.foldl (fun shims dep => mapSet shims (shimPath dep) (shimText texts dep)) []

/-! ## Compiled program model

`ts.createProgram` and the syntax trees it produces are toolchain code, not
code of this repository; the pieces the Dependency-Closure Filter consults
are modelled from the spec (§4.6: "for each entry point, locate its source
file in the program; if found, recursively visit its top-level import
declarations"). -/

/-- Modelled from the spec: the top-level statements of a parsed source file
that matter to the closure walk.  `ts.isImportDeclaration` holds exactly for
`importDecl`; a re-export (`export ... from "..."`) is an
`ExportDeclaration` in the toolchain's syntax tree, carried here as
`exportFrom`, and is not an import declaration.  Everything else is
`other`. -/
inductive TopStatement where
  | importDecl (specifier : String)
  | exportFrom (specifier : String)
  | other
deriving DecidableEq

/-- Modelled from the spec: a parsed source file of the program, with its
name and top-level statements. -/
structure SourceFile where
  fileName : String
  statements : List TopStatement
deriving DecidableEq

/-- Modelled from the spec: the compiled program as the collection of its
parsed source files. -/
structure Program where
  sourceFiles : List SourceFile
deriving DecidableEq

/-- Modelled from the spec: `program.getSourceFile(name)`. -/
def Program.getSourceFile (prog : Program) (name : String) : Option SourceFile :=
  prog.sourceFiles.find? (fun sf => sf.fileName == name)

/-- Collapse `.` and empty path segments and resolve `..` (what the
toolchain's path normalization does when `ts.resolveModuleName` combines a
relative specifier with the containing directory). -/
def collapsePath (path : String) : String :=
  joinSlash ((splitSlash path).foldl
    (fun acc seg =>
      if seg = "" ∨ seg = "." then acc
      else if seg = ".." then acc.dropLast
      else acc ++ [seg]) [])

/-- Modelled from the spec: stands in for the toolchain's
`ts.resolveModuleName` as the closure filter invokes it with
`fileExists := program.getSourceFile(f) !== undefined` (src/main.ts lines
243–251) — §4.6's "resolve it via the same module-resolution order as §4.4
restricted to files already present in the program".  The specifier is
joined to the containing file's directory, the path collapsed, and the
literal path, the source-extension-appended paths and the `/index.ts` path
probed among the program's files. -/
def resolveInProgram (prog : Program) (containingFile spec : String) : Option String :=
  let containingDir := joinSlash (splitSlash containingFile).dropLast
  let base := collapsePath (containingDir ++ "/" ++ spec)
  [base, base ++ ".ts", base ++ ".tsx", base ++ ".d.ts", base ++ "/index.ts"].find?
    (fun candidate => (prog.getSourceFile candidate).isSome)

/-! ## Dependency-closure filter (src/main.ts lines 200–286) -/

/-- The declaration path of a source file:
`sourceFile.fileName.replace(/\.tsx?$/, ".d.ts")` (src/main.ts line 220). -/
def dtsName (fileName : String) : String :=
  if strEndsWith fileName ".tsx" then strDropRight fileName 4 ++ ".d.ts"
  else if strEndsWith fileName ".ts" then strDropRight fileName 3 ++ ".d.ts"
  else fileName

/-- The statement loop of `addFileAndDependencies` (src/main.ts lines
231–261): only import declarations whose specifier starts with `.` are
followed; the resolved file, when present in the program, is visited through
`recurse`. -/
def runImports (prog : Program)
    (recurse : List String → SourceFile → List String) :
    List String → String → List TopStatement → List String
  | rel, _, [] => rel
  | rel, fileName, st :: rest =>
    let rel2 :=
      match st with
      | TopStatement.importDecl spec =>
        if strStartsWith spec "." then
          match resolveInProgram prog fileName spec with
          | some resolvedPath =>
            match prog.getSourceFile resolvedPath with
            | some imported => recurse rel imported
            | none => rel
          | none => rel
        else rel
      | _ => rel
    runImports prog recurse rel2 fileName rest

/-- Embeds `addFileAndDependencies` (src/main.ts lines 219–262): skip when
the declaration path is already marked or has no emitted declaration, else
mark it and walk the file's top-level import declarations.  The source
terminates through its visited set; here a fuel argument bounds the
recursion depth, and callers pass more fuel than there are declaration
entries, which the marking discipline never exhausts. -/
def addFileAndDependencies (allDeclarations : List (String × String)) (prog : Program) :
    Nat → List String → SourceFile → List String
  | 0 => fun relevantFiles _ => relevantFiles
  | Nat.succ fuel => fun relevantFiles sourceFile =>
    let dtsPath := dtsName sourceFile.fileName
    if relevantFiles.contains dtsPath || !mapHas allDeclarations dtsPath then
      relevantFiles
    else
      runImports prog (addFileAndDependencies allDeclarations prog fuel)
        (relevantFiles ++ [dtsPath]) sourceFile.fileName sourceFile.statements

/-- The relevant-file closure built from the entry points (src/main.ts lines
265–270). -/
def relevantClosure (allDeclarations : List (String × String))
    (packageJson : PackageJson) (prog : Program) : List String :=
  (getPackageEntryPoints packageJson).foldl
    (fun relevantFiles entryPoint =>
      match prog.getSourceFile entryPoint with
      | some sourceFile =>
        addFileAndDependencies allDeclarations prog
          (allDeclarations.length + 1) relevantFiles sourceFile
      | none => relevantFiles)
    []

/-- Embeds `filterRelevantDeclarations` (src/main.ts lines 200–286).  The
final loop of the source copies `allDeclarations[file]` for each file of the
relevant set; as a key-to-content map that is the restriction of
`allDeclarations` to the relevant keys, written here as a filter. -/
def filterRelevantDeclarations (allDeclarations : List (String × String))
    (packageJson : Option PackageJson) (program : Program) :
    List (String × String) :=
  match packageJson with
  | none => allDeclarations
  | some pj =>
    if (getPackageEntryPoints pj).isEmpty then allDeclarations
    else
      let relevantFiles := relevantClosure allDeclarations pj program
      if relevantFiles.isEmpty then allDeclarations
      else allDeclarations.filter (fun kv => relevantFiles.contains kv.1)

/-! ## Compiler host module resolution (src/main.ts lines 713–752) -/

/-- The extension probe loop of the host's `resolveModuleNames`
(src/main.ts lines 726–733): for each extension, the candidate is the
resolved path itself when it already ends in that extension, else the
resolved path with the extension appended; the first candidate present in
the virtual file store wins. -/
def tryExtensions (fileMap : List (String × String)) (resolvedPath : String) :
    List String → Option String
  | [] => none
  | ext :: rest =>
    let fullPath := if strEndsWith resolvedPath ext then resolvedPath
      else resolvedPath ++ ext
    if mapHas fileMap fullPath then some fullPath
    else tryExtensions fileMap resolvedPath rest

/-- Embeds the per-specifier body of the host's `resolveModuleNames`
(src/main.ts lines 714–751).  A relative specifier is joined to the
containing file's directory (a plain string join, no segment collapsing)
and normalized, then probed through the extension loop
`[".ts", ".tsx", ".d.ts", ""]` and finally as `/index.ts`; a bare specifier
is looked up as a `node_modules` shim when external-dependency resolution is
on; anything unresolved is `undefined` (`none`). -/
def resolveModuleName (fileMap : List (String × String))
    (resolveExternalDependencies : Bool) (containingFile moduleName : String) :
    Option String :=
  if strStartsWith moduleName "." then
    let containingDir := joinSlash (splitSlash containingFile).dropLast
    let resolvedPath := normalizePath (containingDir ++ "/" ++ moduleName)
    match tryExtensions fileMap resolvedPath [".ts", ".tsx", ".d.ts", ""] with
    | some found => some found
    | none =>
      let indexPath := resolvedPath ++ "/index.ts"
      if mapHas fileMap indexPath then some indexPath else none
  else if resolveExternalDependencies then
    let nodeModulePath := "node_modules/" ++ moduleName ++ "/index.d.ts"
    if mapHas fileMap nodeModulePath then some nodeModulePath else none
  else none

/-- Embeds `resolveModuleNames` itself: the per-specifier resolution mapped
over the specifier list. -/
def resolveModuleNames (fileMap : List (String × String))
    (resolveExternalDependencies : Bool) (moduleNames : List String)
    (containingFile : String) : List (Option String) :=
  moduleNames.map
    (fun moduleName =>
      resolveModuleName fileMap resolveExternalDependencies containingFile moduleName)

/-- Definition following the amended claim C4's words (not the source): the
probe sequence the host actually consults for a relative specifier, in
order — extension-appended candidates first (each candidate being the
resolved path itself when it already carries that extension), then the
literal resolved path, then the `/index.ts` path. -/
def probeOrderSpec (containingFile moduleName : String) : List String :=
  let containingDir := joinSlash (splitSlash containingFile).dropLast
  let p := normalizePath (containingDir ++ "/" ++ moduleName)
  [if strEndsWith p ".ts" then p else p ++ ".ts",
   if strEndsWith p ".tsx" then p else p ++ ".tsx",
   if strEndsWith p ".d.ts" then p else p ++ ".d.ts",
   p,
   p ++ "/index.ts"]

/-! ## Orchestrator data (src/main.ts lines 3–32, 545–859) -/

/-- Embeds the `FileInput` interface. -/
structure FileInput where
  name : String
  content : String
deriving DecidableEq

/-- Embeds the `GenerateOptions` interface with the source's defaults
(src/main.ts lines 551–557). -/
structure GenerateOptions where
  filterToExports : Bool := true
  resolveExternalDependencies : Bool := true
  timeoutMs : Nat := 30000
  maxMemoryMb : Nat := 256
  includeDeclarationMap : Bool := false
deriving DecidableEq

/-- Embeds the `DeclarationResult` interface. -/
structure DeclarationResult where
  files : List (String × String)
  errors : List String
  success : Bool
  warnings : List String
deriving DecidableEq

/-- The toolchain's diagnostic categories (`ts.DiagnosticCategory`). -/
inductive DiagnosticCategory where
  | warning
  | error
  | suggestion
  | message
deriving DecidableEq, BEq

/-- Position information of a diagnostic that carries a file and a start
offset, after `getLineAndCharacterOfPosition` (zero-based line and
character, as the toolchain reports them). -/
structure DiagnosticPosition where
  fileName : String
  line : Nat
  character : Nat
deriving DecidableEq

/-- Modelled from the spec: a toolchain diagnostic as the formatter consumes
it — its category, its optional position (present exactly when
`diagnostic.file` and `diagnostic.start` are defined) and its already
flattened message text. -/
structure Diagnostic where
  category : DiagnosticCategory
  position : Option DiagnosticPosition
  messageText : String
deriving DecidableEq

/-- The diagnostic formatting of src/main.ts lines 779–796 and 801–818:
`file:line+1,character+1: message` with position information, else the bare
flattened message. -/
def formatDiagnostic (d : Diagnostic) : String :=
  match d.position with
  | some pos =>
    pos.fileName ++ ":" ++ toString (pos.line + 1) ++ "," ++
      toString (pos.character + 1) ++ ": " ++ d.messageText
  | none => d.messageText

/-- Modelled from the spec: everything the external toolchain hands back to
the orchestrator for one run — the write-backs `program.emit` pushed through
the host's `writeFile`, the `emitSkipped` flag, the concatenation of
pre-emit and emit diagnostics, and the compiled program consulted by the
closure filter. -/
structure ToolchainOutcome where
  emittedWrites : List (String × String)
  emitSkipped : Bool
  diagnostics : List Diagnostic
  program : Program
deriving DecidableEq

/-! ## Manifest selection and virtual file store (src/main.ts lines 578–675) -/

/-- The in-file fallback of manifest discovery (src/main.ts lines 588–601):
the first submitted file named exactly `package.json`, parsed; a parse
failure is recorded as a warning and leaves no manifest.  `JSON.parse` is
the runtime's parser, abstracted as the `parse` argument (an `Except`
carries the thrown error's message). -/
def selectManifestFromFiles (parse : String → Except String PackageJson)
    (files : List FileInput) : Option PackageJson × List String :=
  match files.find? (fun file => file.name == "package.json") with
  | some file =>
    match parse file.content with
    | Except.ok pj => (some pj, [])
    | Except.error msg =>
      (none, ["Failed to parse package.json from file map: " ++ msg])
  | none => (none, [])

/-- Embeds the manifest-selection prelude of `generateMultiFileDeclarations`
(src/main.ts lines 578–602): an explicitly passed manifest text is parsed
(the empty string is falsy and falls through, like a missing argument);
otherwise the file map is searched. -/
def selectManifest (parse : String → Except String PackageJson)
    (files : List FileInput) (packageJsonContent : Option String) :
    Option PackageJson × List String :=
  match packageJsonContent with
  | some content =>
    if content = "" then selectManifestFromFiles parse files
    else
      match parse content with
      | Except.ok pj => (some pj, [])
      | Except.error msg => (none, ["Failed to parse package.json: " ++ msg])
  | none => selectManifestFromFiles parse files

/-- Embeds the virtual-file-store construction (src/main.ts lines 648–675):
every submitted file stored under its normalized name (later files
overwrite), then the enhanced `lib.d.ts`, then — when external-dependency
resolution is on and a manifest exists — the dependency shims. -/
def buildFileMap (texts : ShimTexts) (files : List FileInput)
    (resolveExternalDependencies : Bool) (packageJson : Option PackageJson) :
    List (String × String) :=
  let m := files.foldl
    (fun m file => mapSet m (normalizePath file.name) file.content) []
  let m := mapSet m "lib.d.ts" texts.lib
  match packageJson with
  | some pj =>
    if resolveExternalDependencies then
      (createExternalDependencyShims texts (getExternalDependencies pj)).foldl
        (fun m kv => mapSet m kv.1 kv.2) m
    else m
  | none => m

/-- The content of the last submitted file whose name normalizes to `key`
(what overwrite-on-set leaves in the store for that key). -/
def lastContent (files : List FileInput) (key : String) : Option String :=
  files.foldl
    (fun acc file => if normalizePath file.name = key then some file.content else acc)
    none

/-! ## Orchestrator (src/main.ts lines 545–859) -/

/-- Embeds the generation body of `generateMultiFileDeclarations`
(src/main.ts lines 576–845), the synchronous pipeline inside the async
closure: manifest selection, virtual store construction (consumed by the
toolchain through the host), capture of the emitted declaration files
(`writeFile` keeps only `.d.ts`, plus `.d.ts.map` when requested), the
error/warning partition of the diagnostics, export filtering, and the final
result record with `success = !emitSkipped && filtered non-empty`. -/
def orchestrate (texts : ShimTexts) (parse : String → Except String PackageJson)
    (files : List FileInput) (packageJsonContent : Option String)
    (options : GenerateOptions) (outcome : ToolchainOutcome) : DeclarationResult :=
  let manifest := selectManifest parse files packageJsonContent
  let packageJson := manifest.1
  let _fileMap := buildFileMap texts files options.resolveExternalDependencies packageJson
  let declarationFiles := outcome.emittedWrites.foldl
    (fun m kv =>
      if strEndsWith kv.1 ".d.ts" ||
          (options.includeDeclarationMap && strEndsWith kv.1 ".d.ts.map") then
        mapSet m kv.1 kv.2
      else m)
    []
  let errors := (outcome.diagnostics.filter
    (fun d => d.category == DiagnosticCategory.error)).map formatDiagnostic
  let emitWarnings := (outcome.diagnostics.filter
    (fun d => d.category == DiagnosticCategory.warning)).map formatDiagnostic
  let filteredDeclarations :=
    match options.filterToExports, packageJson with
    | true, some pj =>
      filterRelevantDeclarations declarationFiles (some pj) outcome.program
    | _, _ => declarationFiles
  { files := filteredDeclarations
    errors := errors
    success := !outcome.emitSkipped && !filteredDeclarations.isEmpty
    warnings := manifest.2 ++ emitWarnings }

/-- The rejection message of the timeout promise (src/main.ts line 563). -/
def timeoutErrorMessage (timeoutMs : Nat) : String :=
  "Declaration generation timed out after " ++ toString timeoutMs ++ "ms"

/-- Embeds `Promise.race([generationPromise, timeoutPromise])` (src/main.ts
lines 560–566 and 858): if the generation promise settles first the race
adopts its value, otherwise the race rejects with the timeout error —
a rejection, not a `DeclarationResult`. -/
def raceWithTimeout (generationSettledFirst : Bool)
    (generationResult : DeclarationResult) (timeoutMs : Nat) :
    Except String DeclarationResult :=
  if generationSettledFirst then Except.ok generationResult
  else Except.error (timeoutErrorMessage timeoutMs)

/-- Embeds `generateMultiFileDeclarations` (src/main.ts lines 545–859).
The generation body (lines 576–855) contains no `await`: under the
JavaScript runtime's run-to-completion execution the async closure runs to
its `return` before control returns to the event loop, so its promise is
already settled when `Promise.race` is installed and the `setTimeout`
callback can never win the race — the first race argument is therefore
`true`. -/
def generateMultiFileDeclarations (texts : ShimTexts)
    (parse : String → Except String PackageJson) (files : List FileInput)
    (packageJsonContent : Option String) (options : GenerateOptions)
    (outcome : ToolchainOutcome) : Except String DeclarationResult :=
  raceWithTimeout true
    (orchestrate texts parse files packageJsonContent options outcome)
    options.timeoutMs

/-! ## Concrete fixtures used by the closed theorems -/

/-- Concrete shim texts for closed evaluations (their content is never
inspected by the pipeline's control flow). -/
def texts0 : ShimTexts := ⟨"LIB", "REACT", "LODASH", fun dep => dep⟩

/-- A manifest whose single entry point resolves to `index.ts`. -/
def entryManifest : PackageJson := { main := some "./index.ts" }

/-- A concrete stand-in for `JSON.parse` mapping the text `PKG` to
`entryManifest` and failing on everything else. -/
def entryParse : String → Except String PackageJson :=
  fun s => if s = "PKG" then Except.ok entryManifest else Except.error "Unexpected token"

/-- The four submitted source files of the closure scenario. -/
def c2SourceFiles : List FileInput :=
  [⟨"index.ts", "SRC"⟩, ⟨"a.ts", "SRC"⟩, ⟨"b.ts", "SRC"⟩, ⟨"c.ts", "SRC"⟩]

/-- The declaration files the toolchain emits for the closure scenario. -/
def c2Declarations : List (String × String) :=
  [("index.d.ts", "DI"), ("a.d.ts", "DA"), ("b.d.ts", "DB"), ("c.d.ts", "DC")]

/-- The program in which `index.ts` references `./a` and `./b` through
top-level import declarations; `c.ts` is unreferenced. -/
def c2ImportProgram : Program :=
  ⟨[⟨"index.ts", [TopStatement.importDecl "./a", TopStatement.importDecl "./b"]⟩,
    ⟨"a.ts", []⟩, ⟨"b.ts", []⟩, ⟨"c.ts", []⟩]⟩

/-- The same program except that `index.ts` references `./a` and `./b`
through `export ... from` re-exports (export declarations, not import
declarations). -/
def c2ReexportProgram : Program :=
  ⟨[⟨"index.ts", [TopStatement.exportFrom "./a", TopStatement.exportFrom "./b"]⟩,
    ⟨"a.ts", []⟩, ⟨"b.ts", []⟩, ⟨"c.ts", []⟩]⟩

/-- A concrete parser that fails on the fixture's `package.json` content. -/
def c9Parse : String → Except String PackageJson :=
  fun s => if s = "GOOD" then Except.ok {} else Except.error "bad json"

/-- A submitted file list containing a `package.json` whose content does not
parse. -/
def c9Files : List FileInput := [⟨"x.ts", "c"⟩, ⟨"package.json", "nope"⟩]

/-- An empty toolchain outcome. -/
def c9Outcome : ToolchainOutcome := ⟨[], false, [], ⟨[]⟩⟩

/-- A toolchain outcome carrying one diagnostic of every category. -/
def c6Outcome : ToolchainOutcome :=
  ⟨[], false,
   [⟨DiagnosticCategory.suggestion, none, "SUGG-MSG"⟩,
    ⟨DiagnosticCategory.message, none, "INFO-MSG"⟩,
    ⟨DiagnosticCategory.error, none, "ERR-MSG"⟩,
    ⟨DiagnosticCategory.warning, none, "WARN-MSG"⟩], ⟨[]⟩⟩

/-! ## Basic lemmas -/

theorem strData_append (a b : String) : (a ++ b).data = a.data ++ b.data := by
  cases a; cases b; rfl

theorem strEndsWith_empty (p : String) : strEndsWith p "" = true := rfl

theorem mapGet_mapSet (m : List (String × String)) (k v k2 : String) :
    mapGet (mapSet m k v) k2 = if k2 = k then some v else mapGet m k2 := by
  induction m with
  | nil =>
    by_cases h : k2 = k
    · subst h; simp [mapSet, mapGet]
    · simp [mapSet, mapGet, h, Ne.symm h]
  | cons hd tl ih =>
    obtain ⟨hk, hv⟩ := hd
    by_cases h1 : hk = k
    · subst h1
      by_cases h2 : k2 = hk
      · subst h2; simp [mapSet, mapGet]
      · simp [mapSet, mapGet, h2, Ne.symm h2]
    · by_cases h2 : hk = k2
      · subst h2
        simp [mapSet, mapGet, h1]
      · simp [mapSet, mapGet, h1, h2, ih]

theorem mapKeys_cons (a b : String) (tl : List (String × String)) :
    mapKeys ((a, b) :: tl) = a :: mapKeys tl := rfl

theorem mapKeys_mapSet (m : List (String × String)) (k v : String) :
    mapKeys (mapSet m k v) =
      if k ∈ mapKeys m then mapKeys m else mapKeys m ++ [k] := by
  induction m with
  | nil => simp [mapSet, mapKeys]
  | cons hd tl ih =>
    obtain ⟨hk, hv⟩ := hd
    by_cases h1 : hk = k
    · subst h1; simp [mapSet, mapKeys_cons]
    · have h1s : ¬k = hk := fun h => h1 h.symm
      by_cases h2 : k ∈ mapKeys tl
      · simp [mapSet, h1, mapKeys_cons, h1s, h2, ih]
      · simp [mapSet, h1, mapKeys_cons, h1s, h2, ih]

theorem mapKeys_nodup_mapSet (m : List (String × String)) (k v : String)
    (h : (mapKeys m).Nodup) : (mapKeys (mapSet m k v)).Nodup := by
  rw [mapKeys_mapSet]
  by_cases hk : k ∈ mapKeys m
  · simpa [hk] using h
  · simpa [hk, List.nodup_append] using h

theorem normalizePath_eq_self (q : String) (h1 : strStartsWith q "./" = false)
    (h2 : strStartsWith q "/" = false) : normalizePath q = q := by
  simp [normalizePath, h1, h2]

theorem strStartsWith_shimPath_dot (d : String) :
    strStartsWith (shimPath d) "./" = false := by
  cases d with
  | mk data => rfl

theorem strStartsWith_shimPath_slash (d : String) :
    strStartsWith (shimPath d) "/" = false := by
  cases d with
  | mk data => rfl

theorem shimPath_data_length (d : String) :
    (shimPath d).data.length = d.data.length + 24 := by
  show ((("node_modules/" ++ d) ++ "/index.d.ts")).data.length = _
  rw [strData_append, strData_append]
  simp [List.length_append]

theorem tryExtensions_eq (fm : List (String × String)) (p : String)
    (exts : List String) :
    tryExtensions fm p exts =
      (exts.map (fun e => if strEndsWith p e then p else p ++ e)).find?
        (fun c => mapHas fm c) := by
  induction exts with
  | nil => rfl
  | cons e rest ih =>
    simp only [tryExtensions, List.map_cons]
    cases hm : mapHas fm (if strEndsWith p e then p else p ++ e) with
    | true =>
      rw [List.find?_cons_of_pos _ hm]
      simp [hm]
    | false =>
      rw [List.find?_cons_of_neg]
      · simp [hm, ih]
      · simp [hm]

theorem find?_concat_one (l : List String) (x : String) (f : String → Bool) :
    (l ++ [x]).find? f =
      match l.find? f with
      | some v => some v
      | none => if f x then some x else none := by
  rw [List.find?_append]
  cases hf : l.find? f with
  | some v => rfl
  | none =>
    cases hx : f x with
    | true => simp [List.find?_cons_of_pos _ hx, Option.or]
    | false =>
      rw [List.find?_cons_of_neg]
      · simp [Option.or]
      · simp [hx]

section FoldSet

variable {α : Type} (keyOf valOf : α → String)

theorem foldSet_get (l : List α) (m0 : List (String × String)) (key : String) :
    mapGet (l.foldl (fun m x => mapSet m (keyOf x) (valOf x)) m0) key
      = l.foldl (fun acc x => if keyOf x = key then some (valOf x) else acc)
          (mapGet m0 key) := by
  induction l generalizing m0 with
  | nil => rfl
  | cons a rest ih =>
    simp only [List.foldl_cons]
    rw [ih]
    congr 1
    rw [mapGet_mapSet]
    by_cases hk : keyOf a = key
    · simp [hk]
    · rw [if_neg hk, if_neg (fun hh : key = keyOf a => hk hh.symm)]

theorem foldSet_keys_mem (l : List α) (m0 : List (String × String)) (k : String)
    (h : k ∈ mapKeys (l.foldl (fun m x => mapSet m (keyOf x) (valOf x)) m0)) :
    k ∈ mapKeys m0 ∨ ∃ x, x ∈ l ∧ keyOf x = k := by
  induction l generalizing m0 with
  | nil => exact Or.inl h
  | cons a rest ih =>
    simp only [List.foldl_cons] at h
    rcases ih _ h with h1 | h2
    · rw [mapKeys_mapSet] at h1
      by_cases hm : keyOf a ∈ mapKeys m0
      · rw [if_pos hm] at h1
        exact Or.inl h1
      · rw [if_neg hm] at h1
        rcases List.mem_append.mp h1 with h3 | h3
        · exact Or.inl h3
        · simp only [List.mem_singleton] at h3
          exact Or.inr ⟨a, by simp, h3.symm⟩
    · obtain ⟨x, hx, hk⟩ := h2
      exact Or.inr ⟨x, by simp [hx], hk⟩

theorem foldSet_nodup (l : List α) (m0 : List (String × String))
    (h : (mapKeys m0).Nodup) :
    (mapKeys (l.foldl (fun m x => mapSet m (keyOf x) (valOf x)) m0)).Nodup := by
  induction l generalizing m0 with
  | nil => exact h
  | cons a rest ih =>
    simp only [List.foldl_cons]
    exact ih _ (mapKeys_nodup_mapSet _ _ _ h)

theorem foldl_if_skip (l : List α) (key : String) (acc0 : Option String)
    (h : ∀ x, x ∈ l → keyOf x ≠ key) :
    l.foldl (fun acc x => if keyOf x = key then some (valOf x) else acc) acc0
      = acc0 := by
  induction l generalizing acc0 with
  | nil => rfl
  | cons a rest ih =>
    simp only [List.foldl_cons]
    rw [if_neg (h a (by simp))]
    exact ih _ (fun x hx => h x (by simp [hx]))

end FoldSet

theorem buildFileMap_keys (texts : ShimTexts) (files : List FileInput)
    (reExt : Bool) (pj : Option PackageJson) (k : String)
    (h : k ∈ mapKeys (buildFileMap texts files reExt pj)) :
    k = "lib.d.ts" ∨ (∃ d, k = shimPath d)
      ∨ ∃ f, f ∈ files ∧ k = normalizePath f.name := by
  have hcommon :
      k ∈ mapKeys (mapSet
          (files.foldl (fun m file => mapSet m (normalizePath file.name) file.content) [])
          "lib.d.ts" texts.lib) →
      k = "lib.d.ts" ∨ (∃ d, k = shimPath d)
        ∨ ∃ f, f ∈ files ∧ k = normalizePath f.name := by
    intro hk
    rw [mapKeys_mapSet] at hk
    have hfiles :
        k ∈ mapKeys (files.foldl
            (fun m file => mapSet m (normalizePath file.name) file.content) []) →
        ∃ f, f ∈ files ∧ k = normalizePath f.name := by
      intro hmem
      rcases foldSet_keys_mem (fun file => normalizePath file.name)
          (fun file => file.content) files [] k hmem with h0 | ⟨f, hf, he⟩
      · simp [mapKeys] at h0
      · exact ⟨f, hf, he.symm⟩
    by_cases hl : "lib.d.ts" ∈ mapKeys (files.foldl
        (fun m file => mapSet m (normalizePath file.name) file.content) [])
    · rw [if_pos hl] at hk
      exact Or.inr (Or.inr (hfiles hk))
    · rw [if_neg hl] at hk
      rcases List.mem_append.mp hk with h1 | h1
      · exact Or.inr (Or.inr (hfiles h1))
      · simp only [List.mem_singleton] at h1
        exact Or.inl h1
  cases pj with
  | none => exact hcommon h
  | some p =>
    by_cases hre : reExt
    · simp only [buildFileMap, hre, if_true] at h
      rcases foldSet_keys_mem Prod.fst Prod.snd
          (createExternalDependencyShims texts (getExternalDependencies p)) _ k h with
        h1 | ⟨kv, hkv, he⟩
      · exact hcommon h1
      · have h2 : kv.1 ∈ mapKeys
            (createExternalDependencyShims texts (getExternalDependencies p)) :=
          List.mem_map.mpr ⟨kv, hkv, rfl⟩
        rcases foldSet_keys_mem shimPath (shimText texts)
            (getExternalDependencies p) [] kv.1 h2 with h0 | ⟨d, _, hd⟩
        · simp [mapKeys] at h0
        · exact Or.inr (Or.inl ⟨d, by rw [← he, ← hd]⟩)
    · simp only [buildFileMap, hre, if_false] at h
      exact hcommon h

theorem buildFileMap_nodup (texts : ShimTexts) (files : List FileInput)
    (reExt : Bool) (pj : Option PackageJson) :
    (mapKeys (buildFileMap texts files reExt pj)).Nodup := by
  have h1 : (mapKeys (files.foldl
      (fun m file => mapSet m (normalizePath file.name) file.content) [])).Nodup :=
    foldSet_nodup (fun file => normalizePath file.name) (fun file => file.content)
      files [] (by simp [mapKeys])
  have h2 := mapKeys_nodup_mapSet _ "lib.d.ts" texts.lib h1
  cases pj with
  | none => exact h2
  | some p =>
    by_cases hre : reExt
    · simp only [buildFileMap, hre, if_true]
      exact foldSet_nodup Prod.fst Prod.snd _ _ h2
    · simp only [buildFileMap, hre, if_false]
      exact h2

theorem buildFileMap_get (texts : ShimTexts) (files : List FileInput)
    (reExt : Bool) (pj : Option PackageJson) (key : String)
    (hlib : key ≠ "lib.d.ts") (hshim : ∀ d, key ≠ shimPath d) :
    mapGet (buildFileMap texts files reExt pj) key = lastContent files key := by
  have hfiles : mapGet (files.foldl
      (fun m file => mapSet m (normalizePath file.name) file.content) []) key
      = lastContent files key := by
    have h := foldSet_get (fun file => normalizePath file.name)
      (fun file => file.content) files [] key
    simpa [lastContent, mapGet] using h
  have hafter : mapGet (mapSet
      (files.foldl (fun m file => mapSet m (normalizePath file.name) file.content) [])
      "lib.d.ts" texts.lib) key = lastContent files key := by
    rw [mapGet_mapSet, if_neg hlib, hfiles]
  cases pj with
  | none => exact hafter
  | some p =>
    by_cases hre : reExt
    · simp only [buildFileMap, hre, if_true]
      have hskip : ∀ kv, kv ∈ createExternalDependencyShims texts
          (getExternalDependencies p) → kv.1 ≠ key := by
        intro kv hkv
        have h2 : kv.1 ∈ mapKeys
            (createExternalDependencyShims texts (getExternalDependencies p)) :=
          List.mem_map.mpr ⟨kv, hkv, rfl⟩
        rcases foldSet_keys_mem shimPath (shimText texts)
            (getExternalDependencies p) [] kv.1 h2 with h0 | ⟨d, _, hd⟩
        · simp [mapKeys] at h0
        · intro hc
          exact hshim d (by rw [← hc, ← hd])
      rw [foldSet_get Prod.fst Prod.snd, foldl_if_skip Prod.fst Prod.snd _ _ _ hskip,
        hafter]
    · simp only [buildFileMap, hre, if_false]
      exact hafter

/-! ## Claim theorems -/

/-- Claim C1 (code bug evidence): for the manifest
`{"exports": {".": {"types": "./dist/index.d.ts"}}}` the entry point
resolver returns the empty sequence — the string-valued `types` condition
nested under the subpath key `.` is dropped, because the recursion's
condition branch fires only when a condition's value is itself an object —
whereas the claim (and the spec's testable property) demand exactly
`["dist/index.ts"]`. -/
theorem c1_exports_condition_skipped :
    getPackageEntryPoints
        { exports := some [(".", ExportsEntry.obj [("types", "./dist/index.d.ts")])] }
      = []
    ∧ ([] : List String) ≠ ["dist/index.ts"]
    ∧ getPackageEntryPoints
        { exports := some [("browser", ExportsEntry.obj [("types", "./dist/index.d.ts")])] }
      = ["dist/index.ts"] := by
  refine ⟨by decide, by decide, by decide⟩

/-- Claim C2 (counterexample): in the same scenario with `index.ts`
referencing `./a` and `./b` through top-level `export ... from` re-exports
(the premise's "imports/re-exports" read as re-exports), the filtered files
map keeps only `index.d.ts` and drops `b.d.ts` — re-exports are export
declarations, not import declarations, and the closure walk does not follow
them — contradicting the claim that the result contains the declarations
for `a` and `b`. -/
theorem c2_reexports_not_followed :
    (orchestrate texts0 entryParse c2SourceFiles (some "PKG") {}
        ⟨c2Declarations, false, [], c2ReexportProgram⟩).files
      = [("index.d.ts", "DI")]
    ∧ ("b.d.ts", "DB") ∉ (orchestrate texts0 entryParse c2SourceFiles (some "PKG") {}
        ⟨c2Declarations, false, [], c2ReexportProgram⟩).files := by
  refine ⟨by decide, by decide⟩

/-- Claim C2 (amended): when `index.ts` references `./a` and `./b` through
top-level import declarations, with the manifest's entry point resolving to
`index.ts` and `filterToExports` enabled, the result's files map contains
the declarations for `index`, `a` and `b` and does not contain the
declaration for the unreferenced `c`. -/
theorem c2_import_closure :
    (orchestrate texts0 entryParse c2SourceFiles (some "PKG") {}
        ⟨c2Declarations, false, [], c2ImportProgram⟩).files
      = [("index.d.ts", "DI"), ("a.d.ts", "DA"), ("b.d.ts", "DB")]
    ∧ ("c.d.ts", "DC") ∉ (orchestrate texts0 entryParse c2SourceFiles (some "PKG") {}
        ⟨c2Declarations, false, [], c2ImportProgram⟩).files := by
  refine ⟨by decide, by decide⟩

/-- Claim C3: for every completed invocation, the result's `success` field
is true exactly when the toolchain's emit was not skipped and the
post-filtering declaration-file map (the result's `files` field) is
non-empty; in particular an empty filtered map forces `success = false`
even when emission succeeded. -/
theorem c3_success_iff (texts : ShimTexts)
    (parse : String → Except String PackageJson) (files : List FileInput)
    (pjc : Option String) (options : GenerateOptions) (outcome : ToolchainOutcome) :
    (orchestrate texts parse files pjc options outcome).success = true ↔
      (outcome.emitSkipped = false
        ∧ (orchestrate texts parse files pjc options outcome).files ≠ []) := by
  have h : ∀ (e : Bool) (F : List (String × String)),
      ((!e && !F.isEmpty) = true ↔ (e = false ∧ F ≠ [])) := by
    intro e F
    cases e <;> cases F <;> simp
  exact h outcome.emitSkipped (orchestrate texts parse files pjc options outcome).files

/-- Claim C4 (counterexample): for the relative specifier `./a` imported
from `dir/f.ts` with both the literal resolved path `dir/./a` and the
`.ts`-appended path `dir/./a.ts` present in the virtual store, the host
resolves to the extension-appended path, not the literal one as the claim
states (the probe loop tries `.ts`, `.tsx`, `.d.ts` before the literal
path, which is the empty-extension case at the end of the loop). -/
theorem c4_extension_beats_literal :
    resolveModuleName [("dir/./a", "lit"), ("dir/./a.ts", "ext")] true "dir/f.ts" "./a"
      = some "dir/./a.ts"
    ∧ mapHas [("dir/./a", "lit"), ("dir/./a.ts", "ext")] "dir/./a" = true
    ∧ some ("dir/./a.ts") ≠ some ("dir/./a") := by
  refine ⟨by decide, by decide, by decide⟩

/-- Claim C4 (amended): for every relative specifier (beginning with `.`),
the host's resolution equals the first probe present in the virtual file
store along the order `probeOrderSpec` actually uses — the `.ts`-, `.tsx`-
and `.d.ts`-appended candidates (each candidate being the resolved path
itself when it already ends in that extension), then the literal resolved
path, then the `/index.ts` path — and is `none` (undefined, no throw) when
no probe is present. -/
theorem c4_probe_order (fileMap : List (String × String)) (r : Bool)
    (f s : String) (h : strStartsWith s "." = true) :
    resolveModuleName fileMap r f s =
      (probeOrderSpec f s).find? (fun c => mapHas fileMap c) := by
  simp only [resolveModuleName, probeOrderSpec, h, if_true]
  rw [tryExtensions_eq]
  simp only [List.map_cons, List.map_nil, strEndsWith_empty, if_true]
  generalize normalizePath (joinSlash (splitSlash f).dropLast ++ "/" ++ s) = p
  have hsplit :
      ([if strEndsWith p ".ts" then p else p ++ ".ts",
        if strEndsWith p ".tsx" then p else p ++ ".tsx",
        if strEndsWith p ".d.ts" then p else p ++ ".d.ts",
        p, p ++ "/index.ts"] : List String)
      = [if strEndsWith p ".ts" then p else p ++ ".ts",
         if strEndsWith p ".tsx" then p else p ++ ".tsx",
         if strEndsWith p ".d.ts" then p else p ++ ".d.ts",
         p] ++ [p ++ "/index.ts"] := rfl
  rw [hsplit, find?_concat_one]

/-- Witness for claim C4's amended theorem at a concrete input. -/
theorem c4_probe_order_witness :
    strStartsWith "./a" "." = true
    ∧ resolveModuleName [("dir/a.ts", "src")] true "dir/f.ts" "./a"
        = (probeOrderSpec "dir/f.ts" "./a").find?
            (fun c => mapHas [("dir/a.ts", "src")] c) :=
  ⟨by decide, c4_probe_order [("dir/a.ts", "src")] true "dir/f.ts" "./a" (by decide)⟩

/-- Claim C5: `filterRelevantDeclarations` returns the complete unfiltered
declaration map whenever the manifest is absent, the entry-point resolver
yields an empty sequence, or the computed relevant-file closure is empty. -/
theorem c5_unfiltered_fallbacks (decls : List (String × String))
    (packageJson : Option PackageJson) (prog : Program)
    (h : packageJson = none
      ∨ ∃ pj, packageJson = some pj
          ∧ (getPackageEntryPoints pj = [] ∨ relevantClosure decls pj prog = [])) :
    filterRelevantDeclarations decls packageJson prog = decls := by
  rcases h with h | ⟨pj, hpj, h⟩
  · subst h; rfl
  · subst hpj
    rcases h with h | h
    · simp [filterRelevantDeclarations, h]
    · by_cases he : (getPackageEntryPoints pj).isEmpty
      · simp [filterRelevantDeclarations, he]
      · simp [filterRelevantDeclarations, he, h]

/-- Witness for claim C5's theorem at a concrete input (absent manifest). -/
theorem c5_unfiltered_fallbacks_witness :
    filterRelevantDeclarations [("a.d.ts", "x")] none ⟨[]⟩ = [("a.d.ts", "x")] :=
  c5_unfiltered_fallbacks [("a.d.ts", "x")] none ⟨[]⟩ (Or.inl rfl)

/-- Claim C6 (counterexample): with one diagnostic of every category, the
suggestion- and message-category diagnostics appear in neither the errors
nor the warnings of the result — the warnings keep only the
warning-category diagnostics, not "every other diagnostic" as the claim
states. -/
theorem c6_suggestion_dropped :
    (orchestrate texts0 entryParse [] none {} c6Outcome).errors = ["ERR-MSG"]
    ∧ (orchestrate texts0 entryParse [] none {} c6Outcome).warnings = ["WARN-MSG"]
    ∧ "SUGG-MSG" ∉ (orchestrate texts0 entryParse [] none {} c6Outcome).warnings
    ∧ "INFO-MSG" ∉ (orchestrate texts0 entryParse [] none {} c6Outcome).warnings := by
  refine ⟨by decide, by decide, by decide, by decide⟩

/-- Claim C6 (amended): the result's errors are exactly the error-category
diagnostics and its warnings are the previously accumulated
manifest-parsing warnings followed by exactly the warning-category
diagnostics (suggestion- and message-category diagnostics are dropped),
each formatted by `formatDiagnostic` — `file:line,col: message` with
position information, the bare message without. -/
theorem c6_partition (texts : ShimTexts)
    (parse : String → Except String PackageJson) (files : List FileInput)
    (pjc : Option String) (options : GenerateOptions) (outcome : ToolchainOutcome) :
    (orchestrate texts parse files pjc options outcome).errors
      = (outcome.diagnostics.filter
          (fun d => d.category == DiagnosticCategory.error)).map formatDiagnostic
    ∧ (orchestrate texts parse files pjc options outcome).warnings
      = (selectManifest parse files pjc).2
        ++ (outcome.diagnostics.filter
            (fun d => d.category == DiagnosticCategory.warning)).map formatDiagnostic :=
  ⟨rfl, rfl⟩

/-- Claim C7 (code bug evidence): at `timeoutMs = 0` — a budget every run
exceeds — the invocation still returns the ordinary generation result
(here a success with no errors), not a `success = false` failure carrying
the timeout message `timeoutErrorMessage`: the generation body contains no
`await`, so its promise settles before the timer can ever fire, and even
the timer path would reject the promise rather than return a result. -/
theorem c7_timeout_unreachable :
    generateMultiFileDeclarations texts0 entryParse
        [⟨"input.ts", "export const x = 1"⟩] none { timeoutMs := 0 }
        ⟨[("input.d.ts", "DX")], false, [], ⟨[⟨"input.ts", []⟩]⟩⟩
      = Except.ok ⟨[("input.d.ts", "DX")], [], true, []⟩
    ∧ timeoutErrorMessage 0 = "Declaration generation timed out after 0ms" :=
  ⟨rfl, rfl⟩

/-- Claim C8 (counterexample): `normalizePath` is not idempotent — on
`"//x"` one application strips only the first slash, so a second
application changes the result again. -/
theorem c8_not_idempotent :
    normalizePath "//x" = "/x"
    ∧ normalizePath (normalizePath "//x") ≠ normalizePath "//x" := by
  refine ⟨by decide, by decide⟩

/-- Claim C8 (amended): `normalizePath` is idempotent on every input whose
first application yields a string that does not again begin with `./` or
`/`; otherwise a second application can strip one more prefix. -/
theorem c8_idempotent_on_clean (p : String)
    (h1 : strStartsWith (normalizePath p) "./" = false)
    (h2 : strStartsWith (normalizePath p) "/" = false) :
    normalizePath (normalizePath p) = normalizePath p :=
  normalizePath_eq_self (normalizePath p) h1 h2

/-- Witness for claim C8's amended theorem at a concrete input. -/
theorem c8_idempotent_on_clean_witness :
    strStartsWith (normalizePath "./src/a.ts") "./" = false
    ∧ strStartsWith (normalizePath "./src/a.ts") "/" = false
    ∧ normalizePath (normalizePath "./src/a.ts") = normalizePath "./src/a.ts" :=
  ⟨by decide, by decide, c8_idempotent_on_clean "./src/a.ts" (by decide) (by decide)⟩

/-- Claim C9: when no manifest text is passed and the submitted files
contain a file named exactly `package.json`, that file's content is parsed
and used as the manifest; a parse failure leaves no manifest and records
the parse warning, which the completed invocation's warnings carry in front
of the toolchain's warning diagnostics. -/
theorem c9_manifest_fallback (texts : ShimTexts)
    (parse : String → Except String PackageJson) (options : GenerateOptions)
    (outcome : ToolchainOutcome) (files : List FileInput) (f : FileInput)
    (hf : files.find? (fun file => file.name == "package.json") = some f) :
    selectManifest parse files none =
      (match parse f.content with
       | Except.ok pj => (some pj, [])
       | Except.error msg =>
         (none, ["Failed to parse package.json from file map: " ++ msg]))
    ∧ (orchestrate texts parse files none options outcome).warnings
      = (selectManifest parse files none).2
        ++ (outcome.diagnostics.filter
            (fun d => d.category == DiagnosticCategory.warning)).map formatDiagnostic := by
  constructor
  · simp [selectManifest, selectManifestFromFiles, hf]
  · rfl

/-- Witness for claim C9's theorem at a concrete input whose `package.json`
content fails to parse. -/
theorem c9_manifest_fallback_witness :
    selectManifest c9Parse c9Files none
      = (none, ["Failed to parse package.json from file map: bad json"])
    ∧ (orchestrate texts0 c9Parse c9Files none {} c9Outcome).warnings
      = ["Failed to parse package.json from file map: bad json"] := by
  have h := c9_manifest_fallback texts0 c9Parse {} c9Outcome c9Files
    ⟨"package.json", "nope"⟩ (by decide)
  exact ⟨h.1, h.2⟩

/-- Claim C10 (counterexample): a submitted file named `//x` is stored
under the key `/x`, which is not a fixed point of `normalizePath` — so not
every key of the virtual file store is a fixed point. -/
theorem c10_key_not_fixed_point :
    "/x" ∈ mapKeys (buildFileMap texts0 [⟨"//x", "a"⟩] false none)
    ∧ normalizePath "/x" ≠ "/x" := by
  refine ⟨by decide, by decide⟩

/-- Claim C10 (amended): every key of the virtual file store is the
`lib.d.ts` key, a `node_modules` shim key, or the `normalizePath`-image of
a submitted file name; the keys are pairwise distinct (a single entry per
key); the `lib.d.ts` key and every shim key are fixed points of
`normalizePath` (a normalized submitted name need not be); and at every key
other than `lib.d.ts` and the shim keys the store holds the content of the
last submitted file whose name normalizes to that key. -/
theorem c10_store_invariants (texts : ShimTexts) (files : List FileInput)
    (reExt : Bool) (pj : Option PackageJson) :
    (∀ k, k ∈ mapKeys (buildFileMap texts files reExt pj) →
        k = "lib.d.ts" ∨ (∃ d, k = shimPath d)
          ∨ ∃ f, f ∈ files ∧ k = normalizePath f.name)
    ∧ (mapKeys (buildFileMap texts files reExt pj)).Nodup
    ∧ normalizePath "lib.d.ts" = "lib.d.ts"
    ∧ (∀ d, normalizePath (shimPath d) = shimPath d)
    ∧ (∀ key, key ≠ "lib.d.ts" → (∀ d, key ≠ shimPath d) →
        mapGet (buildFileMap texts files reExt pj) key = lastContent files key) :=
  ⟨fun k hk => buildFileMap_keys texts files reExt pj k hk,
   buildFileMap_nodup texts files reExt pj,
   by decide,
   fun d => normalizePath_eq_self (shimPath d) (strStartsWith_shimPath_dot d)
     (strStartsWith_shimPath_slash d),
   fun key hlib hshim => buildFileMap_get texts files reExt pj key hlib hshim⟩

/-- Witness for claim C10's theorem at a concrete input: two submitted
files whose names normalize to the same key leave a single entry holding
the later file's content. -/
theorem c10_store_invariants_witness :
    mapGet (buildFileMap texts0 [⟨"./a.ts", "one"⟩, ⟨"a.ts", "two"⟩] false none) "a.ts"
      = lastContent [⟨"./a.ts", "one"⟩, ⟨"a.ts", "two"⟩] "a.ts"
    ∧ lastContent [⟨"./a.ts", "one"⟩, ⟨"a.ts", "two"⟩] "a.ts" = some "two" := by
  refine ⟨(c10_store_invariants texts0 [⟨"./a.ts", "one"⟩, ⟨"a.ts", "two"⟩]
      false none).2.2.2.2 "a.ts" (by decide) (fun d => ?_), by decide⟩
  intro h
  have hlen : ("a.ts" : String).data.length = (shimPath d).data.length :=
    congrArg (fun s => s.data.length) h
  rw [shimPath_data_length] at hlen
  have h4 : ("a.ts".data).length = 4 := rfl
  omega
